import Mathlib

/-!
Verification of the analysis engine of the `ai_experiment_assistant` package
(`analyzer.py`, `recorder.py`, `config.py`, `models.py`).

Embedding conventions:
* Python floats are embedded as exact rationals (`ℚ`); the engine only adds,
  subtracts, multiplies, divides and compares them.
* A pandas DataFrame built by `experiments_to_dataframe` is embedded as the
  list of records it was built from (the engine only reads whole columns of
  it, never positional indexing), so column operations become list maps.
* `NaN` values (produced by `.replace(0, np.nan)` and by the mean of an
  all-NaN series) are embedded as `none : Option ℚ`; pandas' NaN-skipping
  `.mean()` becomes `nanMean`.
* `pandas.Series.std(ddof=0)` is the square root of the population variance.
  Square roots of rationals are irrational in general, so the embedding
  carries the exact square of the standard deviation (`spopVar`, the
  population variance) and embeds the source comparison
  `std_anode >= instability_std_limit` by the exactly equivalent rational
  test `sqrtGe` (`limit ≤ 0 ∨ limit² ≤ variance`), equivalence proved in
  `sqrtGe_eq_true_iff`.
* `f"..."` float formatting inside anomaly messages is embedded by an exact
  rendering `qstr` of the rational; no claim constrains the digits of the
  rendered number.
* Fields of the `Experiment` ORM model that the analysed functions never
  read (`date_time`, `voltage_V`, `current_A`, `duration_min`, `notes`, the
  integer primary key) are omitted from the record type as inert.
-/

/-- Embeds `models.Experiment`: the identifier, the two grouping fields and
the six numeric mass fields (initial/final/delta for each electrode). -/
structure Experiment where
  experiment_id : String
  mode : String
  electrolyte : String
  initial_mass_positive_g : ℚ
  final_mass_positive_g : ℚ
  delta_mass_positive_g : ℚ
  initial_mass_negative_g : ℚ
  final_mass_negative_g : ℚ
  delta_mass_negative_g : ℚ
deriving DecidableEq, Repr

/-- Embeds `models.Anomaly` (a plain dataclass of three strings). -/
structure Anomaly where
  experiment_id : String
  anomaly_type : String
  message : String
deriving DecidableEq, Repr

/-- The merged threshold dictionary read by `detect_anomalies`: the three
recognized keys, each with a rational value. -/
structure AnalysisConfig where
  cathode_loss_ratio_threshold : ℚ
  anode_loss_threshold_g : ℚ
  std_dev_instability_threshold_g : ℚ
deriving DecidableEq, Repr

/-- Embeds `config.DEFAULT_ANALYSIS_CONFIG`. -/
def DEFAULT_ANALYSIS_CONFIG : AnalysisConfig :=
  { cathode_loss_ratio_threshold := 1/2
    anode_loss_threshold_g := 1/10
    std_dev_instability_threshold_g := 1/20 }

/-- A caller-supplied threshold dictionary: each recognized key may be
present (`some`) or absent (`none`).  Unrecognized keys are never read by
the engine, so they do not appear in the embedding. -/
structure ThresholdOverrides where
  cathode_loss_ratio_threshold : Option ℚ := none
  anode_loss_threshold_g : Option ℚ := none
  std_dev_instability_threshold_g : Option ℚ := none
deriving DecidableEq, Repr

/-- The argument `None` (no overrides) of `detect_anomalies`. -/
def noOverrides : ThresholdOverrides := {}

/-- Embeds the merge `{**config.DEFAULT_ANALYSIS_CONFIG, **(thresholds or {})}`:
key-by-key, a supplied value wins over the default. -/
def mergeThresholds (thresholds : ThresholdOverrides) : AnalysisConfig :=
  { cathode_loss_ratio_threshold :=
      thresholds.cathode_loss_ratio_threshold.getD
        DEFAULT_ANALYSIS_CONFIG.cathode_loss_ratio_threshold
    anode_loss_threshold_g :=
      thresholds.anode_loss_threshold_g.getD
        DEFAULT_ANALYSIS_CONFIG.anode_loss_threshold_g
    std_dev_instability_threshold_g :=
      thresholds.std_dev_instability_threshold_g.getD
        DEFAULT_ANALYSIS_CONFIG.std_dev_instability_threshold_g }

/-- Exact rendering of a rational for anomaly message strings (the source
formats floats with `:.2f` / `:.3f`; no claim depends on the digits). -/
def qstr (q : ℚ) : String :=
  toString q.num ++ "/" ++ toString q.den

/-- Embeds `analyzer.experiments_to_dataframe`: the DataFrame is modelled by
the record list itself (one row per record, columns read as list maps). -/
def experiments_to_dataframe (experiments : List Experiment) : List Experiment :=
  experiments

/-- `pandas.Series.mean` on a column: sum over count (`0` on an empty
column never reaches the callers below, which guard for emptiness). -/
def smean (l : List ℚ) : ℚ := l.sum / l.length

/-- The square of `pandas.Series.std(ddof=0)`: the population variance,
mean of squared deviations with denominator = count. -/
def spopVar (l : List ℚ) : ℚ := smean (l.map (fun x => (x - smean l) ^ 2))

/-- `pandas.Series.max` on a nonempty column. -/
def smax : List ℚ → ℚ
  | [] => 0
  | x :: xs => xs.foldl max x

/-- `pandas.Series.min` on a nonempty column. -/
def smin : List ℚ → ℚ
  | [] => 0
  | x :: xs => xs.foldl min x

/-- NaN-skipping `pandas.Series.mean`: the mean of the non-NaN entries,
itself NaN (`none`) when every entry is NaN. -/
def nanMean (l : List (Option ℚ)) : Option ℚ :=
  let vals := l.filterMap id
  if vals.isEmpty then none else some (vals.sum / vals.length)

/-- The elementwise series
`df["delta_mass_negative_g"].abs() / df["delta_mass_positive_g"].abs().replace(0, np.nan)`:
each row with a zero anode delta yields NaN (`none`). -/
def ratioColumn (l : List Experiment) : List (Option ℚ) :=
  l.map (fun e =>
    if e.delta_mass_positive_g = 0 then none
    else some (|e.delta_mass_negative_g| / |e.delta_mass_positive_g|))

/-- Per-column summary entry of `basic_statistics`; `std_sq` carries the
exact square of the reported `std` (see the header note). -/
structure ColStats where
  mean : ℚ
  std_sq : ℚ
  max : ℚ
  min : ℚ
deriving DecidableEq, Repr

/-- The dictionary returned by `basic_statistics` on a nonempty table. -/
structure Stats where
  anode : ColStats
  cathode : ColStats
  ratio_mean_abs : Option ℚ
deriving DecidableEq, Repr

/-- Per-column part of `analyzer.basic_statistics`. -/
def columnStats (column : List ℚ) : ColStats :=
  { mean := smean column
    std_sq := spopVar column
    max := smax column
    min := smin column }

/-- Embeds `analyzer.basic_statistics`: `none` models the empty dictionary
returned for an empty table. -/
def basic_statistics (df : List Experiment) : Option Stats :=
  if df.isEmpty then none
  else
    some
      { anode := columnStats (df.map (fun e => e.delta_mass_positive_g))
        cathode := columnStats (df.map (fun e => e.delta_mass_negative_g))
        ratio_mean_abs := nanMean (ratioColumn df) }

/-- The grouping key `(electrolyte, mode)` of one record. -/
def keyOf (e : Experiment) : String × String := (e.electrolyte, e.mode)

/-- The rows of the table whose key equals `k` (one `groupby` group). -/
def groupOf (l : List Experiment) (k : String × String) : List Experiment :=
  l.filter (fun e => keyOf e = k)

/-- Lexicographic comparison of group keys: pandas `groupby` sorts group
keys ascending (tuples of strings compare lexicographically). -/
def keyLe (a b : String × String) : Bool :=
  match compare a.1 b.1 with
  | .lt => true
  | .gt => false
  | .eq => compare a.2 b.2 != Ordering.gt

/-- Insertion step of the key sort. -/
def insertKey (k : String × String) : List (String × String) → List (String × String)
  | [] => [k]
  | k' :: t => if keyLe k k' then k :: k' :: t else k' :: insertKey k t

/-- Sort a list of group keys ascending. -/
def sortKeys (ks : List (String × String)) : List (String × String) :=
  ks.foldr insertKey []

/-- The distinct group keys of the table in `groupby` iteration order. -/
def groupKeys (l : List Experiment) : List (String × String) :=
  sortKeys ((l.map keyOf).dedup)

/-- Embeds `analyzer.grouped_statistics`: the result dictionary as an
association list from group key to that group's `basic_statistics`. -/
def grouped_statistics (df : List Experiment) :
    List ((String × String) × Option Stats) :=
  if df.isEmpty then []
  else (groupKeys df).map (fun k => (k, basic_statistics (groupOf df k)))

/-- Exact embedding of the float test `std_anode >= instability_std_limit`,
where `std_anode = sqrt v`: true iff the limit is nonpositive (a square
root is never below it) or its square is at most `v`. -/
def sqrtGe (v limit : ℚ) : Bool :=
  decide (limit ≤ 0) || decide (limit ^ 2 ≤ v)

/-- The `HIGH_CATHODE_LOSS` finding built at `analyzer.py:95-103`. -/
def ruleAAnomaly (cfg : AnalysisConfig) (e : Experiment) : Anomaly :=
  { experiment_id := e.experiment_id
    anomaly_type := "HIGH_CATHODE_LOSS"
    message :=
      "陰極質量變化過大，|Δm-|/|Δm+| = " ++
        qstr (|e.delta_mass_negative_g| / |e.delta_mass_positive_g|) ++
        " 超過門檻 " ++ qstr cfg.cathode_loss_ratio_threshold }

/-- The `HIGH_ANODE_LOSS` finding built at `analyzer.py:105-111`. -/
def ruleBAnomaly (cfg : AnalysisConfig) (e : Experiment) : Anomaly :=
  { experiment_id := e.experiment_id
    anomaly_type := "HIGH_ANODE_LOSS"
    message :=
      "陽極質量流失 " ++ qstr e.delta_mass_positive_g ++ " g 超過門檻 " ++
        qstr cfg.anode_loss_threshold_g ++ " g" }

/-- The `UNSTABLE_RESULTS` finding built at `analyzer.py:119-127`; `v` is
the population variance (square of the reported standard deviation). -/
def ruleCAnomaly (cfg : AnalysisConfig) (k : String × String) (v : ℚ) : Anomaly :=
  { experiment_id := "GROUP-" ++ k.1 ++ "-" ++ k.2
    anomaly_type := "UNSTABLE_RESULTS"
    message :=
      "條件(" ++ k.1 ++ ", " ++ k.2 ++ ") 下陽極 Δm 標準差平方 " ++ qstr v ++
        " 門檻 " ++ qstr cfg.std_dev_instability_threshold_g ++ " g" }

/-- Embeds `analyzer.detect_anomalies`: merge thresholds over defaults,
loop over the records appending Rule A then Rule B findings, then loop over
the `groupby` groups appending Rule C findings. -/
def detect_anomalies (experiments : List Experiment)
    (thresholds : ThresholdOverrides) : List Anomaly :=
  let cfg := mergeThresholds thresholds
  let experiments_list := experiments
  if experiments_list.isEmpty then []
  else
    let perRecord :=
      experiments_list.foldl
        (fun acc exp =>
          let acc1 :=
            if exp.delta_mass_positive_g ≠ 0 then
              if cfg.cathode_loss_ratio_threshold ≤
                  |exp.delta_mass_negative_g| / |exp.delta_mass_positive_g| then
                acc ++ [ruleAAnomaly cfg exp]
              else acc
            else acc
          if cfg.anode_loss_threshold_g ≤ exp.delta_mass_positive_g then
            acc1 ++ [ruleBAnomaly cfg exp]
          else acc1)
        []
    let df := experiments_to_dataframe experiments_list
    (groupKeys df).foldl
      (fun acc k =>
        let v := spopVar ((groupOf df k).map (fun e => e.delta_mass_positive_g))
        if sqrtGe v cfg.std_dev_instability_threshold_g then
          acc ++ [ruleCAnomaly cfg k v]
        else acc)
      perRecord

/-- The Rule A findings one record contributes (specification-side
decomposition of the first loop of `detect_anomalies`). -/
def ruleA_findings (cfg : AnalysisConfig) (e : Experiment) : List Anomaly :=
  if e.delta_mass_positive_g ≠ 0 then
    if cfg.cathode_loss_ratio_threshold ≤
        |e.delta_mass_negative_g| / |e.delta_mass_positive_g| then
      [ruleAAnomaly cfg e]
    else []
  else []

/-- The Rule B findings one record contributes. -/
def ruleB_findings (cfg : AnalysisConfig) (e : Experiment) : List Anomaly :=
  if cfg.anode_loss_threshold_g ≤ e.delta_mass_positive_g then
    [ruleBAnomaly cfg e]
  else []

/-- The Rule C findings one group key contributes. -/
def ruleC_for_key (cfg : AnalysisConfig) (l : List Experiment)
    (k : String × String) : List Anomaly :=
  let v := spopVar ((groupOf l k).map (fun e => e.delta_mass_positive_g))
  if sqrtGe v cfg.std_dev_instability_threshold_g then [ruleCAnomaly cfg k v]
  else []

/-- Embeds `recorder._calculate_delta`. -/
def calculate_delta (initial final : ℚ) : ℚ := final - initial

/-- Embeds `recorder.add_experiment` restricted to the fields bearing on
the delta invariant: the four masses are required; caller-supplied delta
values (`suppliedDeltaP`, `suppliedDeltaN`) are overwritten by the computed
deltas, exactly as the source's assignment into `parsed` overwrites any
caller-supplied entry. -/
def add_experiment (experiment_id mode electrolyte : String)
    (initial_mass_positive_g final_mass_positive_g : ℚ)
    (initial_mass_negative_g final_mass_negative_g : ℚ)
    (suppliedDeltaP suppliedDeltaN : Option ℚ) : Experiment :=
  let _ := suppliedDeltaP
  let _ := suppliedDeltaN
  { experiment_id := experiment_id
    mode := mode
    electrolyte := electrolyte
    initial_mass_positive_g := initial_mass_positive_g
    final_mass_positive_g := final_mass_positive_g
    delta_mass_positive_g :=
      calculate_delta initial_mass_positive_g final_mass_positive_g
    initial_mass_negative_g := initial_mass_negative_g
    final_mass_negative_g := final_mass_negative_g
    delta_mass_negative_g :=
      calculate_delta initial_mass_negative_g final_mass_negative_g }

/-- A `changes` dictionary passed to `edit_experiment`, restricted to the
numeric fields bearing on the delta invariant (assignments to the other
attributes touch neither masses nor deltas). -/
structure EditChanges where
  initial_mass_positive_g : Option ℚ := none
  final_mass_positive_g : Option ℚ := none
  initial_mass_negative_g : Option ℚ := none
  final_mass_negative_g : Option ℚ := none
  delta_mass_positive_g : Option ℚ := none
  delta_mass_negative_g : Option ℚ := none
deriving DecidableEq, Repr

/-- Embeds `recorder.edit_experiment` on an in-memory record: every
supplied field is assigned, then the positive (resp. negative) delta is
recomputed exactly when one of that electrode's mass fields was supplied. -/
def edit_experiment (e : Experiment) (changes : EditChanges) : Experiment :=
  let e1 :=
    { e with
      initial_mass_positive_g :=
        changes.initial_mass_positive_g.getD e.initial_mass_positive_g
      final_mass_positive_g :=
        changes.final_mass_positive_g.getD e.final_mass_positive_g
      initial_mass_negative_g :=
        changes.initial_mass_negative_g.getD e.initial_mass_negative_g
      final_mass_negative_g :=
        changes.final_mass_negative_g.getD e.final_mass_negative_g
      delta_mass_positive_g :=
        changes.delta_mass_positive_g.getD e.delta_mass_positive_g
      delta_mass_negative_g :=
        changes.delta_mass_negative_g.getD e.delta_mass_negative_g }
  let e2 :=
    if changes.initial_mass_positive_g.isSome ∨
        changes.final_mass_positive_g.isSome then
      { e1 with
        delta_mass_positive_g :=
          calculate_delta e1.initial_mass_positive_g e1.final_mass_positive_g }
    else e1
  if changes.initial_mass_negative_g.isSome ∨
      changes.final_mass_negative_g.isSome then
    { e2 with
      delta_mass_negative_g :=
        calculate_delta e2.initial_mass_negative_g e2.final_mass_negative_g }
  else e2

/-- The delta-mass invariant of §3 of the specification. -/
def deltaInvariant (e : Experiment) : Prop :=
  e.delta_mass_positive_g =
      e.final_mass_positive_g - e.initial_mass_positive_g ∧
    e.delta_mass_negative_g =
      e.final_mass_negative_g - e.initial_mass_negative_g

instance (e : Experiment) : Decidable (deltaInvariant e) := by
  unfold deltaInvariant; infer_instance

/-- Python's `str((electrolyte, mode))` rendering of a group key (quote
escaping inside the strings abstracted). -/
def groupKeyString (k : String × String) : String :=
  "(\x27" ++ k.1 ++ "\x27, \x27" ++ k.2 ++ "\x27)"

/-- The bundle returned by `analyzer.summarize_analysis`. -/
structure Summary where
  overall_stats : Option Stats
  grouped_stats : List (String × Option Stats)
  anomalies : List Anomaly
deriving DecidableEq, Repr

/-- Embeds `analyzer.summarize_analysis`: statistics from the table,
anomalies from `detect_anomalies` with its `thresholds` argument omitted. -/
def summarize_analysis (experiments : List Experiment) : Summary :=
  let exp_list := experiments
  let df := experiments_to_dataframe exp_list
  { overall_stats := if df.isEmpty then none else basic_statistics df
    grouped_stats :=
      if df.isEmpty then []
      else (grouped_statistics df).map (fun p => (groupKeyString p.1, p.2))
    anomalies := detect_anomalies exp_list noOverrides }

/-! ### Decomposition of `detect_anomalies` into the three rules -/

/-- Folding an append-emitting body is the concatenation of the per-item
emissions. -/
lemma foldl_append_join {α β : Type} (g : α → List β) (l : List α) :
    ∀ init : List β,
      l.foldl (fun acc x => acc ++ g x) init = init ++ (l.map g).join := by
  induction l with
  | nil => intro init; simp
  | cons x xs ih => intro init; simp [ih, List.append_assoc]

/-- The body of the per-record loop of `detect_anomalies` emits exactly the
Rule A findings followed by the Rule B findings of the record. -/
lemma perRecord_body_eq (cfg : AnalysisConfig) :
    (fun (acc : List Anomaly) exp =>
        let acc1 :=
          if exp.delta_mass_positive_g ≠ 0 then
            if cfg.cathode_loss_ratio_threshold ≤
                |exp.delta_mass_negative_g| / |exp.delta_mass_positive_g| then
              acc ++ [ruleAAnomaly cfg exp]
            else acc
          else acc
        if cfg.anode_loss_threshold_g ≤ exp.delta_mass_positive_g then
          acc1 ++ [ruleBAnomaly cfg exp]
        else acc1) =
      fun acc exp => acc ++ (ruleA_findings cfg exp ++ ruleB_findings cfg exp) := by
  funext acc exp
  simp only [ruleA_findings, ruleB_findings]
  split_ifs <;> simp

/-- The body of the group loop of `detect_anomalies` emits exactly the Rule
C findings of the key. -/
lemma group_body_eq (cfg : AnalysisConfig) (l : List Experiment) :
    (fun (acc : List Anomaly) (k : String × String) =>
        let v := spopVar ((groupOf l k).map (fun e => e.delta_mass_positive_g))
        if sqrtGe v cfg.std_dev_instability_threshold_g then
          acc ++ [ruleCAnomaly cfg k v]
        else acc) =
      fun acc k => acc ++ ruleC_for_key cfg l k := by
  funext acc k
  simp only [ruleC_for_key]
  split_ifs <;> simp

/-- `detect_anomalies` is the per-record Rule A/B findings in input order
(A before B for each record) followed by the Rule C findings in group
order. -/
lemma detect_anomalies_eq (l : List Experiment) (o : ThresholdOverrides) :
    detect_anomalies l o =
      (l.map (fun e =>
          ruleA_findings (mergeThresholds o) e ++
            ruleB_findings (mergeThresholds o) e)).join ++
        ((groupKeys l).map (ruleC_for_key (mergeThresholds o) l)).join := by
  rcases l with _ | ⟨e, es⟩
  · simp [detect_anomalies, groupKeys, sortKeys]
  · simp only [detect_anomalies, experiments_to_dataframe, List.isEmpty_cons,
      Bool.false_eq_true, if_false]
    rw [perRecord_body_eq, group_body_eq, foldl_append_join, foldl_append_join]
    simp

/-! ### Membership and arithmetic helper lemmas -/

lemma mem_insertKey (a k : String × String) :
    ∀ ks, a ∈ insertKey k ks ↔ a = k ∨ a ∈ ks := by
  intro ks
  induction ks with
  | nil => simp [insertKey]
  | cons k' t ih =>
    simp only [insertKey]
    split_ifs with h
    · simp [or_assoc]
    · simp only [List.mem_cons, ih]
      tauto

lemma mem_sortKeys (a : String × String) :
    ∀ ks, a ∈ sortKeys ks ↔ a ∈ ks := by
  intro ks
  induction ks with
  | nil => simp [sortKeys]
  | cons k t ih =>
    simp only [sortKeys, List.foldr_cons] at ih ⊢
    rw [mem_insertKey, ih, List.mem_cons]

/-- A key occurs among the group keys exactly when some record carries it. -/
lemma mem_groupKeys (l : List Experiment) (k : String × String) :
    k ∈ groupKeys l ↔ ∃ e ∈ l, keyOf e = k := by
  rw [groupKeys, mem_sortKeys, List.mem_dedup, List.mem_map]

/-- The population variance of a one-element column is zero. -/
lemma spopVar_singleton (x : ℚ) : spopVar [x] = 0 := by
  simp [spopVar, smean]

/-- Validation of the embedding of `std >= limit`: for a nonnegative
variance `v`, `sqrtGe v limit` is exactly `limit ≤ √v` over the reals. -/
lemma sqrtGe_eq_true_iff (v limit : ℚ) (hv : 0 ≤ v) :
    sqrtGe v limit = true ↔ (limit : ℝ) ≤ Real.sqrt (v : ℝ) := by
  simp only [sqrtGe, Bool.or_eq_true, decide_eq_true_eq]
  constructor
  · rintro (h | h)
    · calc (limit : ℝ) ≤ 0 := by exact_mod_cast h
        _ ≤ Real.sqrt (v : ℝ) := Real.sqrt_nonneg _
    · calc (limit : ℝ) ≤ |(limit : ℝ)| := le_abs_self _
        _ = Real.sqrt ((limit : ℝ) ^ 2) := (Real.sqrt_sq_eq_abs _).symm
        _ ≤ Real.sqrt (v : ℝ) := by
            apply Real.sqrt_le_sqrt
            exact_mod_cast h
  · intro h
    by_cases h0 : limit ≤ 0
    · exact Or.inl h0
    · push_neg at h0
      right
      have hL : (0 : ℝ) ≤ (limit : ℝ) := by exact_mod_cast h0.le
      have h2 : ((limit : ℝ)) ^ 2 ≤ Real.sqrt (v : ℝ) ^ 2 :=
        pow_le_pow_left hL h 2
      rw [Real.sq_sqrt (by exact_mod_cast hv)] at h2
      exact_mod_cast h2

lemma le_foldl_max (xs : List ℚ) :
    ∀ a b : ℚ, (b = a ∨ b ∈ xs) → b ≤ xs.foldl max a := by
  induction xs with
  | nil =>
    intro a b hb
    rcases hb with hba | hmem
    · rw [hba, List.foldl_nil]
    · cases hmem
  | cons x t ih =>
    intro a b hb
    rw [List.foldl_cons]
    rcases hb with hba | hmem
    · rw [hba]
      exact le_trans (le_max_left a x) (ih (max a x) _ (Or.inl rfl))
    · rcases List.mem_cons.mp hmem with hbx | ht
      · rw [hbx]
        exact le_trans (le_max_right a x) (ih (max a x) _ (Or.inl rfl))
      · exact ih (max a x) b (Or.inr ht)

lemma foldl_max_mem (xs : List ℚ) :
    ∀ a : ℚ, xs.foldl max a = a ∨ xs.foldl max a ∈ xs := by
  induction xs with
  | nil => intro a; exact Or.inl rfl
  | cons x t ih =>
    intro a
    rcases ih (max a x) with h | h
    · rcases max_choice a x with h' | h'
      · rw [List.foldl_cons, h, h']; exact Or.inl rfl
      · rw [List.foldl_cons, h, h']; exact Or.inr (List.mem_cons_self _ _)
    · exact Or.inr (List.mem_cons_of_mem _ h)

lemma foldl_min_le (xs : List ℚ) :
    ∀ a b : ℚ, (b = a ∨ b ∈ xs) → xs.foldl min a ≤ b := by
  induction xs with
  | nil =>
    intro a b hb
    rcases hb with hba | hmem
    · rw [hba, List.foldl_nil]
    · cases hmem
  | cons x t ih =>
    intro a b hb
    rw [List.foldl_cons]
    rcases hb with hba | hmem
    · rw [hba]
      exact le_trans (ih (min a x) _ (Or.inl rfl)) (min_le_left a x)
    · rcases List.mem_cons.mp hmem with hbx | ht
      · rw [hbx]
        exact le_trans (ih (min a x) _ (Or.inl rfl)) (min_le_right a x)
      · exact ih (min a x) b (Or.inr ht)

lemma foldl_min_mem (xs : List ℚ) :
    ∀ a : ℚ, xs.foldl min a = a ∨ xs.foldl min a ∈ xs := by
  induction xs with
  | nil => intro a; exact Or.inl rfl
  | cons x t ih =>
    intro a
    rcases ih (min a x) with h | h
    · rcases min_choice a x with h' | h'
      · rw [List.foldl_cons, h, h']; exact Or.inl rfl
      · rw [List.foldl_cons, h, h']; exact Or.inr (List.mem_cons_self _ _)
    · exact Or.inr (List.mem_cons_of_mem _ h)

/-- On a nonempty column, `smax` is an element and an upper bound. -/
lemma smax_spec (l : List ℚ) (h : l ≠ []) :
    smax l ∈ l ∧ ∀ x ∈ l, x ≤ smax l := by
  rcases l with _ | ⟨x, xs⟩
  · exact absurd rfl h
  · constructor
    · rcases foldl_max_mem xs x with h' | h'
      · rw [smax, h']; exact List.mem_cons_self _ _
      · exact List.mem_cons_of_mem _ h'
    · intro y hy
      rcases List.mem_cons.mp hy with hyx | hy
      · exact le_foldl_max xs x y (Or.inl hyx)
      · exact le_foldl_max xs x y (Or.inr hy)

/-- On a nonempty column, `smin` is an element and a lower bound. -/
lemma smin_spec (l : List ℚ) (h : l ≠ []) :
    smin l ∈ l ∧ ∀ x ∈ l, smin l ≤ x := by
  rcases l with _ | ⟨x, xs⟩
  · exact absurd rfl h
  · constructor
    · rcases foldl_min_mem xs x with h' | h'
      · rw [smin, h']; exact List.mem_cons_self _ _
      · exact List.mem_cons_of_mem _ h'
    · intro y hy
      rcases List.mem_cons.mp hy with hyx | hy
      · exact foldl_min_le xs x y (Or.inl hyx)
      · exact foldl_min_le xs x y (Or.inr hy)

/-- The valid (non-NaN) entries of the ratio column are exactly the ratios
of the records with nonzero anode delta. -/
lemma ratioColumn_filterMap (l : List Experiment) :
    (ratioColumn l).filterMap id =
      (l.filter (fun e => e.delta_mass_positive_g ≠ 0)).map
        (fun e => |e.delta_mass_negative_g| / |e.delta_mass_positive_g|) := by
  induction l with
  | nil => simp [ratioColumn]
  | cons e es ih =>
    by_cases h : e.delta_mass_positive_g = 0
    · simp [ratioColumn, List.filterMap_cons, h, List.filter_cons] at ih ⊢
      exact ih
    · simp [ratioColumn, List.filterMap_cons, h, List.filter_cons] at ih ⊢
      exact ih

/-! ### Classifying findings by rule -/

lemma ruleA_mem (c : AnalysisConfig) (e : Experiment) :
    ∀ a ∈ ruleA_findings c e,
      a.anomaly_type = "HIGH_CATHODE_LOSS" ∧ a.experiment_id = e.experiment_id := by
  unfold ruleA_findings
  split_ifs <;> simp [ruleAAnomaly]

lemma ruleB_mem (c : AnalysisConfig) (e : Experiment) :
    ∀ a ∈ ruleB_findings c e,
      a.anomaly_type = "HIGH_ANODE_LOSS" ∧ a.experiment_id = e.experiment_id := by
  unfold ruleB_findings
  split_ifs <;> simp [ruleBAnomaly]

lemma ruleC_mem (c : AnalysisConfig) (l : List Experiment) (k : String × String) :
    ∀ a ∈ ruleC_for_key c l k,
      a = ruleCAnomaly c k
          (spopVar ((groupOf l k).map (fun e => e.delta_mass_positive_g))) ∧
        sqrtGe (spopVar ((groupOf l k).map (fun e => e.delta_mass_positive_g)))
          c.std_dev_instability_threshold_g = true := by
  intro a ha
  simp only [ruleC_for_key] at ha
  split_ifs at ha with h
  · simp only [List.mem_singleton] at ha
    exact ⟨ha, h⟩
  · simp at ha

lemma filter_HCL_AB (c : AnalysisConfig) (l : List Experiment) :
    ((l.map (fun e => ruleA_findings c e ++ ruleB_findings c e)).join).filter
        (fun a => a.anomaly_type == "HIGH_CATHODE_LOSS") =
      (l.map (fun e => ruleA_findings c e)).join := by
  induction l with
  | nil => simp
  | cons e es ih =>
    simp only [List.map_cons, List.join_cons, List.filter_append, ih]
    congr 1
    have hA : (ruleA_findings c e).filter
        (fun a => a.anomaly_type == "HIGH_CATHODE_LOSS") = ruleA_findings c e := by
      rw [List.filter_eq_self]
      intro a ha
      simp [(ruleA_mem c e a ha).1]
    have hB : (ruleB_findings c e).filter
        (fun a => a.anomaly_type == "HIGH_CATHODE_LOSS") = [] := by
      rw [List.filter_eq_nil]
      intro a ha
      simp [(ruleB_mem c e a ha).1]
    rw [hA, hB, List.append_nil]

lemma filter_UN_AB (c : AnalysisConfig) (l : List Experiment) :
    ((l.map (fun e => ruleA_findings c e ++ ruleB_findings c e)).join).filter
        (fun a => a.anomaly_type == "UNSTABLE_RESULTS") = [] := by
  rw [List.filter_eq_nil]
  intro a ha
  rcases List.mem_join.mp ha with ⟨t, ht, hat⟩
  rcases List.mem_map.mp ht with ⟨e, _, rfl⟩
  rcases List.mem_append.mp hat with h | h
  · simp [(ruleA_mem c e a h).1]
  · simp [(ruleB_mem c e a h).1]

lemma filter_HCL_C (c : AnalysisConfig) (l : List Experiment)
    (ks : List (String × String)) :
    ((ks.map (ruleC_for_key c l)).join).filter
        (fun a => a.anomaly_type == "HIGH_CATHODE_LOSS") = [] := by
  rw [List.filter_eq_nil]
  intro a ha
  rcases List.mem_join.mp ha with ⟨t, ht, hat⟩
  rcases List.mem_map.mp ht with ⟨k, _, rfl⟩
  rcases ruleC_mem c l k a hat with ⟨rfl, _⟩
  simp [ruleCAnomaly]

lemma filter_UN_C (c : AnalysisConfig) (l : List Experiment)
    (ks : List (String × String)) :
    ((ks.map (ruleC_for_key c l)).join).filter
        (fun a => a.anomaly_type == "UNSTABLE_RESULTS") =
      (ks.map (ruleC_for_key c l)).join := by
  rw [List.filter_eq_self]
  intro a ha
  rcases List.mem_join.mp ha with ⟨t, ht, hat⟩
  rcases List.mem_map.mp ht with ⟨k, _, rfl⟩
  rcases ruleC_mem c l k a hat with ⟨rfl, _⟩
  simp [ruleCAnomaly]

/-- The `HIGH_CATHODE_LOSS` findings of a full analysis are exactly the
Rule A emissions, in record order. -/
lemma detect_filter_HCL (l : List Experiment) (o : ThresholdOverrides) :
    (detect_anomalies l o).filter
        (fun a => a.anomaly_type == "HIGH_CATHODE_LOSS") =
      (l.map (fun e => ruleA_findings (mergeThresholds o) e)).join := by
  rw [detect_anomalies_eq, List.filter_append, filter_HCL_AB, filter_HCL_C,
    List.append_nil]

/-- The `UNSTABLE_RESULTS` findings of a full analysis are exactly the Rule
C emissions, in group order. -/
lemma detect_filter_UN (l : List Experiment) (o : ThresholdOverrides) :
    (detect_anomalies l o).filter
        (fun a => a.anomaly_type == "UNSTABLE_RESULTS") =
      ((groupKeys l).map (ruleC_for_key (mergeThresholds o) l)).join := by
  rw [detect_anomalies_eq, List.filter_append, filter_UN_AB, filter_UN_C,
    List.nil_append]

/-! ### Claim theorems -/

/-- C4: for an empty record sequence and every threshold configuration,
the overall statistics result is empty, the grouped statistics mapping is
empty, and the anomaly finding list is empty; none of these operations
raises an error on empty input. -/
theorem C4_empty_input_degenerate :
    basic_statistics [] = none ∧ grouped_statistics [] = [] ∧
      ∀ o : ThresholdOverrides, detect_anomalies [] o = [] :=
  ⟨rfl, rfl, fun _ => rfl⟩

/-- C9: `summarize_analysis` exposes no threshold parameter: its
`anomalies` field is always `detect_anomalies` under no overrides, and the
merged configuration of no overrides is exactly the default configuration
(0.5, 0.1, 0.05). -/
theorem C9_summarize_uses_default_thresholds :
    (∀ l : List Experiment,
        (summarize_analysis l).anomalies = detect_anomalies l noOverrides) ∧
      mergeThresholds noOverrides = DEFAULT_ANALYSIS_CONFIG ∧
      DEFAULT_ANALYSIS_CONFIG =
        { cathode_loss_ratio_threshold := 1/2
          anode_loss_threshold_g := 1/10
          std_dev_instability_threshold_g := 1/20 } :=
  ⟨fun _ => rfl, rfl, rfl⟩

/-- C5: the list returned by `detect_anomalies` is all per-record findings
in input-record order — for each record its Rule A finding (if any)
immediately before its Rule B finding (if any) — followed by all Rule C
group findings. -/
theorem C5_finding_order (l : List Experiment) (o : ThresholdOverrides) :
    detect_anomalies l o =
      (l.map (fun e =>
          ruleA_findings (mergeThresholds o) e ++
            ruleB_findings (mergeThresholds o) e)).join ++
        ((groupKeys l).map (ruleC_for_key (mergeThresholds o) l)).join :=
  detect_anomalies_eq l o

/-- Rule A emissions read only the cathode-loss ratio threshold. -/
lemma ruleA_findings_congr (c c' : AnalysisConfig)
    (h : c.cathode_loss_ratio_threshold = c'.cathode_loss_ratio_threshold)
    (e : Experiment) : ruleA_findings c e = ruleA_findings c' e := by
  unfold ruleA_findings ruleAAnomaly
  rw [h]

/-- Rule C emissions read only the instability threshold. -/
lemma ruleC_for_key_congr (c c' : AnalysisConfig)
    (h : c.std_dev_instability_threshold_g = c'.std_dev_instability_threshold_g)
    (l : List Experiment) (k : String × String) :
    ruleC_for_key c l k = ruleC_for_key c' l k := by
  unfold ruleC_for_key ruleCAnomaly
  rw [h]

/-- C6: two threshold configurations differing only in
`anode_loss_threshold_g` produce the same `HIGH_CATHODE_LOSS` findings and
the same `UNSTABLE_RESULTS` findings (as lists, hence as sets). -/
theorem C6_anode_threshold_noninterference (l : List Experiment)
    (o : ThresholdOverrides) (v : Option ℚ) :
    ((detect_anomalies l { o with anode_loss_threshold_g := v }).filter
          (fun a => a.anomaly_type == "HIGH_CATHODE_LOSS") =
        (detect_anomalies l o).filter
          (fun a => a.anomaly_type == "HIGH_CATHODE_LOSS")) ∧
      (detect_anomalies l { o with anode_loss_threshold_g := v }).filter
          (fun a => a.anomaly_type == "UNSTABLE_RESULTS") =
        (detect_anomalies l o).filter
          (fun a => a.anomaly_type == "UNSTABLE_RESULTS") := by
  constructor
  · rw [detect_filter_HCL, detect_filter_HCL]
    have hf : (fun e => ruleA_findings
          (mergeThresholds { o with anode_loss_threshold_g := v }) e) =
        fun e => ruleA_findings (mergeThresholds o) e :=
      funext (ruleA_findings_congr _ _ rfl)
    rw [hf]
  · rw [detect_filter_UN, detect_filter_UN]
    have hf : ruleC_for_key
          (mergeThresholds { o with anode_loss_threshold_g := v }) l =
        ruleC_for_key (mergeThresholds o) l :=
      funext (ruleC_for_key_congr _ _ rfl l)
    rw [hf]

lemma ruleA_count_aux (c : AnalysisConfig) (idv : String) :
    ∀ l : List Experiment,
      ((l.map (fun e => ruleA_findings c e)).join.filter
          (fun a => a.experiment_id == idv)).length =
        (l.filter (fun e =>
            (e.experiment_id == idv) && decide (e.delta_mass_positive_g ≠ 0) &&
              decide (c.cathode_loss_ratio_threshold ≤
                |e.delta_mass_negative_g| / |e.delta_mass_positive_g|))).length := by
  intro l
  induction l with
  | nil => simp
  | cons e es ih =>
    simp only [List.map_cons, List.join_cons, List.filter_append,
      List.length_append, ih, List.filter_cons]
    by_cases h1 : e.delta_mass_positive_g = 0
    · simp [ruleA_findings, h1]
    · by_cases h2 : c.cathode_loss_ratio_threshold ≤
          |e.delta_mass_negative_g| / |e.delta_mass_positive_g|
      · by_cases h3 : e.experiment_id = idv
        · simp only [ruleA_findings, ruleAAnomaly, h1, h2, h3]
          simp [h1, h2]
          omega
        · simp [ruleA_findings, ruleAAnomaly, h1, h2, h3]
      · simp [ruleA_findings, h1, h2]

/-- C1: among the findings of `detect_anomalies`, the `HIGH_CATHODE_LOSS`
findings attributed to a given identifier are in one-to-one correspondence
with the input records carrying that identifier whose anode delta is
nonzero and whose |cathode|/|anode| ratio reaches the merged threshold; in
particular a record with zero anode delta contributes none, whatever its
cathode delta, and no error arises. -/
theorem C1_high_cathode_loss_iff (l : List Experiment) (o : ThresholdOverrides)
    (idv : String) :
    ((detect_anomalies l o).filter (fun a =>
        (a.anomaly_type == "HIGH_CATHODE_LOSS") && (a.experiment_id == idv))).length =
      (l.filter (fun e =>
          (e.experiment_id == idv) && decide (e.delta_mass_positive_g ≠ 0) &&
            decide ((mergeThresholds o).cathode_loss_ratio_threshold ≤
              |e.delta_mass_negative_g| / |e.delta_mass_positive_g|))).length := by
  have hsplit : (detect_anomalies l o).filter (fun a =>
      (a.anomaly_type == "HIGH_CATHODE_LOSS") && (a.experiment_id == idv)) =
      ((detect_anomalies l o).filter
          (fun a => a.anomaly_type == "HIGH_CATHODE_LOSS")).filter
        (fun a => a.experiment_id == idv) := by
    rw [List.filter_filter]
    apply List.filter_congr
    intro a _
    rw [Bool.and_comm]
  rw [hsplit, detect_filter_HCL, ruleA_count_aux]

/-- C3 as frozen is false on the code: with the override
`std_dev_instability_threshold_g = 0`, a group with exactly one record has
population standard deviation `0.0` and the source test `0.0 >= 0` fires,
so `detect_anomalies` does emit an `UNSTABLE_RESULTS` finding for a
singleton group. -/
theorem C3_counterexample :
    (groupOf [⟨"S1", "CV", "KOH", 0, 1/100, 1/100, 0, 0, 0⟩]
        ("KOH", "CV")).length = 1 ∧
      ∃ a ∈ detect_anomalies [⟨"S1", "CV", "KOH", 0, 1/100, 1/100, 0, 0, 0⟩]
          { std_dev_instability_threshold_g := some 0 },
        a.anomaly_type = "UNSTABLE_RESULTS" ∧
          a.experiment_id = "GROUP-KOH-CV" := by
  constructor
  · norm_num [groupOf, keyOf, List.filter]
  · norm_num [detect_anomalies, mergeThresholds, DEFAULT_ANALYSIS_CONFIG, groupKeys,
      keyOf, sortKeys, insertKey, groupOf, sqrtGe, spopVar, smean, ruleCAnomaly,
      ruleAAnomaly, ruleBAnomaly, experiments_to_dataframe, List.dedup, List.filter]
    rfl

/-- C3 amended: for every threshold configuration whose merged
`std_dev_instability_threshold_g` is strictly positive (in particular the
default 0.05), every `UNSTABLE_RESULTS` finding of `detect_anomalies` is
emitted for a group key whose group contains at least two records, so no
such finding ever comes from a group with exactly one member. -/
theorem C3_no_unstable_for_singleton_group (l : List Experiment)
    (o : ThresholdOverrides)
    (h : 0 < (mergeThresholds o).std_dev_instability_threshold_g)
    (a : Anomaly) (ha : a ∈ detect_anomalies l o)
    (hty : a.anomaly_type = "UNSTABLE_RESULTS") :
    ∃ k : String × String,
      a.experiment_id = "GROUP-" ++ k.1 ++ "-" ++ k.2 ∧
        2 ≤ (groupOf l k).length := by
  have hmem : a ∈ (detect_anomalies l o).filter
      (fun x => x.anomaly_type == "UNSTABLE_RESULTS") :=
    List.mem_filter.mpr ⟨ha, by simp [hty]⟩
  rw [detect_filter_UN] at hmem
  rcases List.mem_join.mp hmem with ⟨t, ht, hat⟩
  rcases List.mem_map.mp ht with ⟨k, hk, rfl⟩
  rcases ruleC_mem _ _ _ a hat with ⟨haeq, hge⟩
  refine ⟨k, by rw [haeq]; rfl, ?_⟩
  rcases (mem_groupKeys l k).mp hk with ⟨e, hel, hke⟩
  have hne : groupOf l k ≠ [] := by
    intro hnil
    have hmem2 : e ∈ groupOf l k := by
      simp [groupOf, List.mem_filter, hel, hke]
    rw [hnil] at hmem2
    cases hmem2
  have hpos : 1 ≤ (groupOf l k).length :=
    List.length_pos.mpr hne
  have hne1 : (groupOf l k).length ≠ 1 := by
    intro hlen
    rcases List.length_eq_one.mp hlen with ⟨x, hx⟩
    rw [hx] at hge
    simp only [List.map_cons, List.map_nil, spopVar_singleton, sqrtGe,
      Bool.or_eq_true, decide_eq_true_eq] at hge
    rcases hge with h0 | h0
    · exact absurd h (not_lt.mpr h0)
    · have : (0 : ℚ) <
          (mergeThresholds o).std_dev_instability_threshold_g ^ 2 :=
        pow_pos h 2
      exact absurd h0 (not_le.mpr this)
  omega

/-- Witness for the amended C3: in the default configuration (threshold
0.05 > 0) the two-record KOH/CV group fires Rule C, and the theorem
locates it in a group of two records. -/
theorem C3_no_unstable_for_singleton_group_witness :
    ∃ k : String × String,
      (ruleCAnomaly (mergeThresholds noOverrides) ("KOH", "CV")
            (1/400)).experiment_id =
          "GROUP-" ++ k.1 ++ "-" ++ k.2 ∧
        2 ≤ (groupOf
            [⟨"R1", "CV", "KOH", 0, 1/10, 1/10, 0, 0, 0⟩,
              ⟨"R2", "CV", "KOH", 0, 1/5, 1/5, 0, 0, 0⟩] k).length :=
  C3_no_unstable_for_singleton_group
    [⟨"R1", "CV", "KOH", 0, 1/10, 1/10, 0, 0, 0⟩,
      ⟨"R2", "CV", "KOH", 0, 1/5, 1/5, 0, 0, 0⟩]
    noOverrides
    (by norm_num [mergeThresholds, noOverrides, DEFAULT_ANALYSIS_CONFIG])
    (ruleCAnomaly (mergeThresholds noOverrides) ("KOH", "CV") (1/400))
    (by norm_num [detect_anomalies, mergeThresholds, noOverrides,
        DEFAULT_ANALYSIS_CONFIG, groupKeys, keyOf, sortKeys, insertKey, groupOf,
        sqrtGe, spopVar, smean, ruleCAnomaly, ruleAAnomaly, ruleBAnomaly,
        experiments_to_dataframe, List.dedup, List.filter, qstr])
    rfl

/-- C7: for two records in group ("KOH","CV") with anode deltas 0.10 and
0.20 and the override `std_dev_instability_threshold_g = 0.05`, the
population standard deviation of the group's anode deltas is exactly 0.05
and `detect_anomalies` emits an `UNSTABLE_RESULTS` finding attributed to
`GROUP-KOH-CV`. -/
theorem C7_exact_boundary_scenario :
    Real.sqrt
        ((spopVar ((groupOf
              [⟨"R1", "CV", "KOH", 0, 1/10, 1/10, 0, 0, 0⟩,
                ⟨"R2", "CV", "KOH", 0, 1/5, 1/5, 0, 0, 0⟩]
              ("KOH", "CV")).map (fun e => e.delta_mass_positive_g)) : ℚ) : ℝ) =
        1/20 ∧
      ∃ a ∈ detect_anomalies
          [⟨"R1", "CV", "KOH", 0, 1/10, 1/10, 0, 0, 0⟩,
            ⟨"R2", "CV", "KOH", 0, 1/5, 1/5, 0, 0, 0⟩]
          { std_dev_instability_threshold_g := some (1/20) },
        a.anomaly_type = "UNSTABLE_RESULTS" ∧
          a.experiment_id = "GROUP-KOH-CV" := by
  constructor
  · have hv : spopVar ((groupOf
          [⟨"R1", "CV", "KOH", 0, 1/10, 1/10, 0, 0, 0⟩,
            ⟨"R2", "CV", "KOH", 0, 1/5, 1/5, 0, 0, 0⟩]
          ("KOH", "CV")).map (fun e => e.delta_mass_positive_g)) = 1/400 := by
      norm_num [spopVar, smean, groupOf, keyOf, List.filter]
    rw [hv]
    have hcast : (((1:ℚ)/400 : ℚ) : ℝ) = (1/20 : ℝ) ^ 2 := by norm_num
    rw [hcast, Real.sqrt_sq (by norm_num : (0:ℝ) ≤ 1/20)]
  · norm_num [detect_anomalies, mergeThresholds, DEFAULT_ANALYSIS_CONFIG, groupKeys,
      keyOf, sortKeys, insertKey, groupOf, sqrtGe, spopVar, smean, ruleCAnomaly,
      ruleAAnomaly, ruleBAnomaly, experiments_to_dataframe, List.dedup, List.filter]
    right
    right
    rfl

lemma isEmpty_map {α β : Type} (f : α → β) (l : List α) :
    (l.map f).isEmpty = l.isEmpty := by
  cases l <;> rfl

lemma smean_eq_zero (l : List ℚ) (h : ∀ y ∈ l, y = 0) : smean l = 0 := by
  have hs : l.sum = 0 := List.sum_eq_zero h
  simp only [smean, hs, zero_div]

/-- The Overall Statistics contract of §4.2, stated against the returned
statistics object: for each mass-delta column the arithmetic mean and the
squared population standard deviation use denominator = row count (not
count − 1), max/min are attained bounds of the column, and
`ratio_mean_abs` is the mean of |cathode|/|anode| over exactly the rows
with nonzero anode delta — NaN (`none`) when there is no such row. -/
def basic_statistics_contract (l : List Experiment) : Prop :=
  ∃ s : Stats, basic_statistics l = some s ∧
    s.anode.mean =
      (l.map (fun e => e.delta_mass_positive_g)).sum / (l.length : ℚ) ∧
    s.anode.std_sq =
      ((l.map (fun e => e.delta_mass_positive_g)).map
          (fun x => (x - s.anode.mean) ^ 2)).sum / (l.length : ℚ) ∧
    s.anode.max ∈ l.map (fun e => e.delta_mass_positive_g) ∧
    (∀ x ∈ l.map (fun e => e.delta_mass_positive_g), x ≤ s.anode.max) ∧
    s.anode.min ∈ l.map (fun e => e.delta_mass_positive_g) ∧
    (∀ x ∈ l.map (fun e => e.delta_mass_positive_g), s.anode.min ≤ x) ∧
    s.cathode.mean =
      (l.map (fun e => e.delta_mass_negative_g)).sum / (l.length : ℚ) ∧
    s.cathode.std_sq =
      ((l.map (fun e => e.delta_mass_negative_g)).map
          (fun x => (x - s.cathode.mean) ^ 2)).sum / (l.length : ℚ) ∧
    s.cathode.max ∈ l.map (fun e => e.delta_mass_negative_g) ∧
    (∀ x ∈ l.map (fun e => e.delta_mass_negative_g), x ≤ s.cathode.max) ∧
    s.cathode.min ∈ l.map (fun e => e.delta_mass_negative_g) ∧
    (∀ x ∈ l.map (fun e => e.delta_mass_negative_g), s.cathode.min ≤ x) ∧
    s.ratio_mean_abs =
      (if (l.filter (fun e => e.delta_mass_positive_g ≠ 0)).isEmpty then none
       else some
        (((l.filter (fun e => e.delta_mass_positive_g ≠ 0)).map
            (fun e => |e.delta_mass_negative_g| / |e.delta_mass_positive_g|)).sum /
          ((l.filter (fun e => e.delta_mass_positive_g ≠ 0)).length : ℚ)))

/-- C2: on every non-empty table, `basic_statistics` satisfies the §4.2
contract: per-column mean, population standard deviation (denominator =
count, witnessed on its square), max and min, plus `ratio_mean_abs`
averaging |cathode|/|anode| over the rows with nonzero anode delta and
excluding — not failing on — the rows with anode delta zero. -/
theorem C2_basic_statistics_contract (l : List Experiment) (h : l ≠ []) :
    basic_statistics_contract l := by
  obtain ⟨x, xs, rfl⟩ : ∃ x xs, l = x :: xs := by
    rcases l with _ | ⟨x, xs⟩
    · exact absurd rfl h
    · exact ⟨x, xs, rfl⟩
  refine ⟨_, rfl, ?_, ?_, ?_, ?_, ?_, ?_, ?_, ?_, ?_, ?_, ?_, ?_, ?_⟩
  · simp [columnStats, smean]
  · simp [columnStats, spopVar, smean]
  · exact (smax_spec _ (by simp)).1
  · exact (smax_spec _ (by simp)).2
  · exact (smin_spec _ (by simp)).1
  · exact (smin_spec _ (by simp)).2
  · simp [columnStats, smean]
  · simp [columnStats, spopVar, smean]
  · exact (smax_spec _ (by simp)).1
  · exact (smax_spec _ (by simp)).2
  · exact (smin_spec _ (by simp)).1
  · exact (smin_spec _ (by simp)).2
  · simp only [nanMean, ratioColumn_filterMap, isEmpty_map, List.length_map]

/-- Witness for C2 at a concrete one-record table (the record of the
specification's Scenario 1). -/
theorem C2_basic_statistics_contract_witness :
    basic_statistics_contract
      [⟨"E1", "CV", "KOH", 0, 3/25, 3/25, 0, -1/50, -1/50⟩] :=
  C2_basic_statistics_contract _ (by simp)

/-- C10: on a non-empty table whose every anode delta is zero,
`basic_statistics` still returns a statistics object; `ratio_mean_abs` is
NaN (`none`, the mean of no contributions) while the anode column
statistics remain well-defined rationals (all zero here). -/
theorem C10_all_zero_anode_nan_ratio (l : List Experiment) (h1 : l ≠ [])
    (h2 : ∀ e ∈ l, e.delta_mass_positive_g = 0) :
    ∃ s : Stats, basic_statistics l = some s ∧ s.ratio_mean_abs = none ∧
      s.anode.mean = 0 ∧ s.anode.std_sq = 0 ∧ s.anode.max = 0 ∧
        s.anode.min = 0 := by
  obtain ⟨x, xs, rfl⟩ : ∃ x xs, l = x :: xs := by
    rcases l with _ | ⟨x, xs⟩
    · exact absurd rfl h1
    · exact ⟨x, xs, rfl⟩
  have hz : ∀ y ∈ (x :: xs).map (fun e => e.delta_mass_positive_g), y = 0 := by
    intro y hy
    rcases List.mem_map.mp hy with ⟨e, he, rfl⟩
    exact h2 e he
  have hmean : smean ((x :: xs).map (fun e => e.delta_mass_positive_g)) = 0 :=
    smean_eq_zero _ hz
  refine ⟨_, rfl, ?_, ?_, ?_, ?_, ?_⟩
  · have hq : (x :: xs).filter (fun e => e.delta_mass_positive_g ≠ 0) = [] :=
      List.filter_eq_nil.mpr (fun e he => by simp [h2 e he])
    simp only [nanMean, ratioColumn_filterMap, hq, List.map_nil,
      List.isEmpty_nil, if_true]
  · exact hmean
  · have hz2 : ∀ y ∈ (((x :: xs).map (fun e => e.delta_mass_positive_g)).map
        (fun v => (v - smean ((x :: xs).map
          (fun e => e.delta_mass_positive_g))) ^ 2)), y = 0 := by
      intro y hy
      rcases List.mem_map.mp hy with ⟨v, hv, rfl⟩
      rw [hz v hv, hmean]
      ring
    exact smean_eq_zero _ hz2
  · exact hz _ (smax_spec ((x :: xs).map fun e => e.delta_mass_positive_g)
      (by simp)).1
  · exact hz _ (smin_spec ((x :: xs).map fun e => e.delta_mass_positive_g)
      (by simp)).1

/-- Witness for C10 at a concrete one-record table with anode delta zero
and nonzero cathode delta (the specification's Scenario 4). -/
theorem C10_all_zero_anode_nan_ratio_witness :
    ∃ s : Stats,
      basic_statistics [⟨"Z1", "CV", "KOH", 0, 0, 0, 0, 1/2, 1/2⟩] = some s ∧
        s.ratio_mean_abs = none ∧ s.anode.mean = 0 ∧ s.anode.std_sq = 0 ∧
          s.anode.max = 0 ∧ s.anode.min = 0 :=
  C10_all_zero_anode_nan_ratio _ (by simp)
    (by
      intro e he
      rw [List.mem_singleton] at he
      subst he
      rfl)

/-- C8 as frozen is false on the code: `edit_experiment` applies every
supplied attribute with `setattr`, and the delta fields are not in
`NUMERIC_FIELDS` nor do they trigger recomputation, so a caller that
passes `delta_mass_positive_g = 999` directly leaves a record violating
`delta = final - initial` (999 ≠ 2 − 1). -/
theorem C8_counterexample :
    deltaInvariant (add_experiment "E1" "CV" "KOH" 1 2 3 4 none none) ∧
      ¬ deltaInvariant
          (edit_experiment (add_experiment "E1" "CV" "KOH" 1 2 3 4 none none)
            { delta_mass_positive_g := some 999 }) := by
  constructor
  · exact ⟨rfl, rfl⟩
  · norm_num [deltaInvariant, edit_experiment, add_experiment, calculate_delta]

/-- C8 amended: every record built by `add_experiment` satisfies the delta
invariant (caller-supplied delta values are overwritten), and
`edit_experiment` preserves it for every change set that does not assign a
delta field directly — in particular any mutation of a mass field forces
recomputation of the corresponding delta. -/
theorem C8_delta_invariant (idv mo el : String)
    (ip fp im fm : ℚ) (sdp sdn : Option ℚ) :
    deltaInvariant (add_experiment idv mo el ip fp im fm sdp sdn) ∧
      ∀ (e : Experiment) (changes : EditChanges),
        deltaInvariant e →
        changes.delta_mass_positive_g = none →
        changes.delta_mass_negative_g = none →
        deltaInvariant (edit_experiment e changes) := by
  constructor
  · exact ⟨rfl, rfl⟩
  · intro e changes hinv hdp hdn
    obtain ⟨cip, cfp, cin, cfn, cdp, cdn⟩ := changes
    simp only at hdp hdn
    subst hdp
    subst hdn
    simp only [edit_experiment, Option.getD_none]
    by_cases hp : cip.isSome ∨ cfp.isSome
    · by_cases hn : cin.isSome ∨ cfn.isSome
      · rw [if_pos hp, if_pos hn]
        exact ⟨rfl, rfl⟩
      · have h3 : cin = none := by
          cases cin
          · rfl
          · exact absurd (Or.inl rfl) hn
        have h4 : cfn = none := by
          cases cfn
          · rfl
          · exact absurd (Or.inr rfl) hn
        subst h3
        subst h4
        rw [if_pos hp, if_neg hn]
        refine ⟨rfl, ?_⟩
        simpa [calculate_delta, Option.getD_none] using hinv.2
    · have h3 : cip = none := by
        cases cip
        · rfl
        · exact absurd (Or.inl rfl) hp
      have h4 : cfp = none := by
        cases cfp
        · rfl
        · exact absurd (Or.inr rfl) hp
      subst h3
      subst h4
      by_cases hn : cin.isSome ∨ cfn.isSome
      · rw [if_neg hp, if_pos hn]
        refine ⟨?_, rfl⟩
        simpa [calculate_delta, Option.getD_none] using hinv.1
      · have h5 : cin = none := by
          cases cin
          · rfl
          · exact absurd (Or.inl rfl) hn
        have h6 : cfn = none := by
          cases cfn
          · rfl
          · exact absurd (Or.inr rfl) hn
        subst h5
        subst h6
        rw [if_neg hp, if_neg hn]
        refine ⟨?_, ?_⟩
        · simpa [calculate_delta, Option.getD_none] using hinv.1
        · simpa [calculate_delta, Option.getD_none] using hinv.2

/-- Witness for the amended C8: editing the final positive mass of a valid
record recomputes its positive delta. -/
theorem C8_delta_invariant_witness :
    deltaInvariant
      (edit_experiment
        { experiment_id := "E2", mode := "CC", electrolyte := "NaOH"
          initial_mass_positive_g := 1, final_mass_positive_g := 3
          delta_mass_positive_g := 2, initial_mass_negative_g := 0
          final_mass_negative_g := 1, delta_mass_negative_g := 1 }
        { final_mass_positive_g := some 5 }) :=
  (C8_delta_invariant "E2" "CC" "NaOH" 1 3 0 1 none none).2 _ _
    ⟨by norm_num, by norm_num⟩ rfl rfl
